import Mathlib

/-!
# FastBox text editor: document buffer, key decoder, dispatch and rendering

A shallow embedding of `src/bin/nano.cpp`.

* A `std::string` is the list of its bytes (`Line`), a
  `std::vector<std::string>` a list of lines.
* The three locals of `runEditor` (`lines`, `curLine`, `curPos`) form the state
  `Editor`.  The two `int` locals are integers: the guards `curPos > 0`,
  `curLine > 0` of the source are what keeps them non-negative, and that is
  proved here, not assumed.  The casts `(int)lines[..].size()` are taken to be
  exact (a line shorter than `2^31` bytes, fewer than `2^31` lines).
* An access the C++ library leaves undefined or answers with an exception
  (`lines[i]` with `i` out of range, `substr`/`erase` past the end of the
  string, an iterator outside the container) makes the operation return `none`.
* What the outside world answers during one loop iteration (the file name typed
  at the prompt, whether the output file opens, the bytes of the input file) is
  the parameter `Env`.  The texts of the prompt and of `showMessage` /
  `showError` are not part of the model; the bytes `renderText` writes are.
* Standard input is a `Terminal`: its settings (`struct termios`), the bytes
  waiting in its queue (what `ioctl(FIONREAD)` counts) and the bursts of bytes
  that arrive later; `read` returns a value `<= 0` exactly when nothing is left.
  The calls `tcgetattr` / `tcsetattr` are taken to succeed.
* Definitions that follow the words of the specification instead of the source
  (`numeral`, `numberedLine`, `Delimits`, `flatText`, `flatPos`, ...) are marked
  as such; the source is compared with them, never defined through them.
-/

namespace FastBox

/-- A `std::string`: its bytes, in order. -/
abbrev Line := List Nat

/-- The locals `lines`, `curLine`, `curPos` of `runEditor`. -/
structure Editor where
  lines : List Line
  curLine : Int
  curPos : Int
  deriving DecidableEq, Repr

/-- The answers of the outside world during one iteration of the loop. -/
structure Env where
  /-- the line read by `promptFileName` -/
  filename : Line
  /-- whether `std::ofstream ofs(filename)` opens -/
  canWrite : Bool
  /-- the bytes of the file when `std::ifstream ifs(filename)` opens -/
  content : Option (List Nat)
  deriving DecidableEq, Repr

/-- What one iteration of the loop sends out. -/
structure Effects where
  /-- the bytes `renderText` wrote (`[]` when it was not called) -/
  screen : List Nat
  /-- the bytes `saveToFile` wrote to the file, when it wrote one -/
  written : Option (List Nat)
  deriving DecidableEq, Repr

/-- The bytes of a string literal. -/
def bytes (s : String) : List Nat := s.data.map Char.toNat

/-! ## Library behaviour used by the source -/

/-- Decimal digits, most significant first; the first argument bounds the
number of digits. -/
def digitsAux : Nat → Nat → List Nat → List Nat
  | 0, _, acc => acc
  | fuel + 1, n, acc =>
    if n < 10 then (48 + n) :: acc
    else digitsAux fuel (n / 10) ((48 + n % 10) :: acc)

/-- The function `std::to_string` on an unsigned value. -/
def to_string (n : Nat) : List Nat := digitsAux (n + 1) n []

/-- The text `operator<<` writes for an `int`. -/
def showInt (i : Int) : List Nat :=
  if i < 0 then 45 :: to_string (-i).toNat else to_string i.toNat

/-- Output of `text` after `std::cout.width(w)`: padded on the left with spaces. -/
def padLeft (w : Nat) (text : List Nat) : List Nat :=
  List.replicate (w - text.length) 32 ++ text

/-- The access `lines[i]` with an `int` index; `none` when out of range. -/
def lineAt (lines : List Line) (i : Int) : Option Line :=
  if 0 ≤ i then lines[i.toNat]? else none

/-- The call `str.substr(pos)`: throws when `pos > size()`. -/
def substrFrom (str : Line) (pos : Int) : Option Line :=
  if 0 ≤ pos ∧ pos ≤ str.length then some (str.drop pos.toNat) else none

/-- The call `str.substr(0, n)`: at most `n` bytes (a negative `int` converts
to a huge `size_t`). -/
def substrTo (str : Line) (n : Int) : Line :=
  if 0 ≤ n then str.take n.toNat else str

/-- The call `str.erase(pos, 1)`: throws when `pos > size()`, erases nothing at
`pos = size()`. -/
def eraseAt (str : Line) (pos : Int) : Option Line :=
  if 0 ≤ pos ∧ pos ≤ str.length then some (str.eraseIdx pos.toNat) else none

/-- The call `str.insert(str.begin() + pos, c)`: the iterator has to be in
`[begin, end]`. -/
def insertAt (str : Line) (pos : Int) (c : Nat) : Option Line :=
  if 0 ≤ pos ∧ pos ≤ str.length then some (str.insertIdx pos.toNat c) else none

/-- One call of `std::getline(ifs, line)` on the bytes still unread, `acc`
being the bytes extracted so far: stops after a newline (consumed, not stored)
or at the end of the stream. -/
def getlineAux : List Nat → Line → Line × List Nat
  | [], acc => (acc, [])
  | c :: rest, acc => if c = 10 then (acc, rest) else getlineAux rest (acc ++ [c])

/-- The call `std::getline(ifs, line)`: fails when the stream is at its end, else
gives the line and the bytes left. -/
def getline (stream : List Nat) : Option (Line × List Nat) :=
  match stream with
  | [] => none
  | _ :: _ => some (getlineAux stream [])

/-- The loop `while (std::getline(ifs, line)) lines.push_back(line);`, with a
bound on the number of iterations. -/
def readLines : Nat → List Nat → List Line → List Line
  | 0, _, lines => lines
  | fuel + 1, stream, lines =>
    match getline stream with
    | none => lines
    | some (line, rest) => readLines fuel rest (lines ++ [line])

/-! ## Screen output -/

/-- Source: `clearScreen`. -/
def clearScreen : List Nat := bytes "\x1b[2J\x1b[H"

/-- Source: `setCursorPosition(x, y)`. -/
def setCursorPosition (x y : Int) : List Nat :=
  bytes "\x1b[" ++ showInt (y + 1) ++ bytes ";" ++ showInt (x + 1) ++ bytes "H"

/-- The `for` loop of `renderText`, from index `i` on. -/
def renderLines (lineNumberWidth : Nat) : List Line → Nat → List Nat
  | [], _ => []
  | line :: rest, i =>
    padLeft lineNumberWidth (to_string (i + 1)) ++ bytes ". " ++ line ++ bytes "\n"
      ++ renderLines lineNumberWidth rest (i + 1)

/-- Source: `renderText`. -/
def renderText (lines : List Line) (curLine curPos : Int) : List Nat :=
  let lineNumberWidth := (to_string lines.length).length
  let cursorX : Int := lineNumberWidth + 2 + curPos
  let cursorY : Int := 2 + curLine
  clearScreen
    ++ bytes "FastBox Text Editor (Ctrl+S save, Ctrl+O open, ESC exit)\n"
    ++ bytes "-----------------------------------------------------------\n"
    ++ renderLines lineNumberWidth lines 0
    ++ setCursorPosition cursorX cursorY

/-! ## File operations -/

/-- Source: `saveToFile`; the result is what was written to the file, `none`
when the function returned before writing. -/
def saveToFile (lines : List Line) (env : Env) : Option (List Nat) :=
  if env.filename = [] then none
  else if ¬ env.canWrite then none
  else some (lines.flatMap (fun line => line ++ bytes "\n"))

/-- Source: `loadFromFile`; the Boolean is its return value, the state is what
the three reference parameters hold afterwards. -/
def loadFromFile (s : Editor) (env : Env) : Bool × Editor :=
  if env.filename = [] then (false, s)
  else
    match env.content with
    | none => (false, s)
    | some stream =>
      let lines := readLines (stream.length + 1) stream []
      let lines := if lines = [] then lines ++ [[]] else lines
      (true, { lines := lines, curLine := 0, curPos := 0 })

/-! ## The branches of the loop of `runEditor` -/

/-- Source: `runEditor`, branch `key == '\n' || key == '\r'`. -/
def splitLineAtCursor (s : Editor) : Option Editor := do
  let currentLine ← lineAt s.lines s.curLine
  let newLine ← substrFrom currentLine s.curPos
  let lines := s.lines.set s.curLine.toNat (substrTo currentLine s.curPos)
  let lines := lines.insertIdx (s.curLine.toNat + 1) newLine
  some { lines := lines, curLine := s.curLine + 1, curPos := 0 }

/-- Source: `runEditor`, branch `key == 8 || key == 127`. -/
def deleteBackward (s : Editor) : Option Editor :=
  if s.curPos > 0 then do
    let line ← lineAt s.lines s.curLine
    let line ← eraseAt line (s.curPos - 1)
    some { s with lines := s.lines.set s.curLine.toNat line, curPos := s.curPos - 1 }
  else if s.curLine > 0 then do
    let prev ← lineAt s.lines (s.curLine - 1)
    let cur ← lineAt s.lines s.curLine
    let lines := s.lines.set (s.curLine - 1).toNat (prev ++ cur)
    let lines := lines.eraseIdx s.curLine.toNat
    some { lines := lines, curLine := s.curLine - 1, curPos := prev.length }
  else some s

/-- The clamp `if (curPos > (int)lines[curLine].size()) curPos = ...` that
follows `curLine--` / `curLine++`, with the new line index. -/
def clampTo (s : Editor) (curLine : Int) : Option Editor := do
  let line ← lineAt s.lines curLine
  some { s with curLine := curLine,
                curPos := if s.curPos > line.length then line.length else s.curPos }

/-- Source: `runEditor`, branch `key >= 1001 && key <= 1004`. -/
def moveCursor (s : Editor) (key : Int) : Option Editor :=
  if key = 1001 then
    if s.curLine > 0 then clampTo s (s.curLine - 1) else some s
  else if key = 1002 then
    if s.curLine < (s.lines.length : Int) - 1 then clampTo s (s.curLine + 1) else some s
  else if key = 1004 then
    if s.curPos > 0 then some { s with curPos := s.curPos - 1 }
    else if s.curLine > 0 then do
      let line ← lineAt s.lines (s.curLine - 1)
      some { s with curLine := s.curLine - 1, curPos := line.length }
    else some s
  else if key = 1003 then do
    let line ← lineAt s.lines s.curLine
    if s.curPos < line.length then some { s with curPos := s.curPos + 1 }
    else if s.curLine < (s.lines.length : Int) - 1 then
      some { s with curLine := s.curLine + 1, curPos := 0 }
    else some s
  else some s

/-- Source: `runEditor`, branch `key >= 32 && key <= 126`. -/
def insertChar (s : Editor) (key : Int) : Option Editor := do
  let line ← lineAt s.lines s.curLine
  let line ← insertAt line s.curPos key.toNat
  some { s with lines := s.lines.set s.curLine.toNat line, curPos := s.curPos + 1 }

/-- How one iteration of `while (true)` ends. -/
inductive Outcome where
  /-- an out-of-range access: the source defines no behaviour -/
  | undefined
  /-- the statement `break`: the editor has terminated -/
  | terminated
  /-- the next iteration starts in state `s`, after the effects `eff` -/
  | continue (s : Editor) (eff : Effects)
  deriving DecidableEq, Repr

/-- The effects of a branch that ends with `renderText(lines, curLine, curPos)`
in state `s`. -/
def drawn (s : Editor) (written : Option (List Nat)) : Effects :=
  { screen := renderText s.lines s.curLine s.curPos, written := written }

/-- The end of a branch that calls `renderText` on the new state. -/
def rendered (r : Option Editor) (written : Option (List Nat)) : Outcome :=
  match r with
  | none => .undefined
  | some s => .continue s (drawn s written)

/-- Source: `runEditor`, the body of `while (true)` once `readKey` has returned
`key`. -/
def handleKey (env : Env) (key : Int) (s : Editor) : Outcome :=
  if key = 27 then .terminated
  else if key = 19 then
    let written := saveToFile s.lines env
    rendered (some { lines := [[]], curLine := 0, curPos := 0 }) written
  else if key = 15 then
    match loadFromFile s env with
    | (true, s') => rendered (some s') none
    | (false, s') => .continue s' { screen := [], written := none }
  else if key = 10 ∨ key = 13 then rendered (splitLineAtCursor s) none
  else if key = 8 ∨ key = 127 then rendered (deleteBackward s) none
  else if key ≥ 1001 ∧ key ≤ 1004 then rendered (moveCursor s key) none
  else if key ≥ 32 ∧ key ≤ 126 then rendered (insertChar s key) none
  else .continue s { screen := [], written := none }

/-- The state `runEditor` starts from. -/
def initial : Editor := { lines := [[]], curLine := 0, curPos := 0 }

/-- The value `(int)lines[i].size()` for an `int` index in range. -/
def lineLength (lines : List Line) (i : Int) : Int :=
  ((lines.getD i.toNat []).length : Int)

/-- The cursor is inside the document: `0 <= curLine < lines.size()` and
`0 <= curPos <= lines[curLine].size()`. -/
def InBounds (s : Editor) : Prop :=
  0 ≤ s.curLine ∧ s.curLine < s.lines.length ∧
    0 ≤ s.curPos ∧ s.curPos ≤ lineLength s.lines s.curLine

instance (s : Editor) : Decidable (InBounds s) := by
  unfold InBounds lineLength; infer_instance

/-! ## The terminal and the key decoder -/

/-- The terminal settings (`struct termios`): the two local-mode flags the
source clears, and all the other settings. -/
structure Termios where
  /-- the flag `ICANON` of `c_lflag` -/
  icanon : Bool
  /-- the flag `ECHO` of `c_lflag` -/
  echo : Bool
  /-- every other setting -/
  other : Nat
  deriving DecidableEq, Repr

/-- Standard input as a terminal: its settings, the bytes waiting in its input
queue, and the bursts of bytes that arrive later (each a first byte and the
bytes that come with it).  When nothing waits and no burst is left, the input
is at its end. -/
structure Terminal where
  mode : Termios
  avail : List Nat
  later : List (Nat × List Nat)
  deriving DecidableEq, Repr

/-- The call `read(STDIN_FILENO, &c, 1)`: the next waiting byte, or the first
byte of the next burst once it has arrived; `none` when `read` returns a value
`<= 0` (nothing left). -/
def read1 (t : Terminal) : Option Nat × Terminal :=
  match t.avail with
  | c :: rest => (some c, { t with avail := rest })
  | [] =>
    match t.later with
    | (c, rest) :: more => (some c, { t with avail := rest, later := more })
    | [] => (none, t)

/-- Source: the lambda `readKey` of `runEditor`.  `tcgetattr` reads the
settings, `tcsetattr` writes them, `ioctl(FIONREAD)` counts the waiting
bytes. -/
def readKey (t : Terminal) : Int × Terminal :=
  let oldt := t.mode
  let newt := { oldt with icanon := false, echo := false }
  let t := { t with mode := newt }
  match read1 t with
  | (none, t) => (0, { t with mode := oldt })
  | (some c, t) =>
    if c = 27 then
      let pending := t.avail.length
      if pending ≥ 2 then
        match t.avail with
        | seq0 :: seq1 :: rest =>
          let t := { t with avail := rest }
          if seq0 = 91 then
            if seq1 = 65 then (1001, { t with mode := oldt })
            else if seq1 = 66 then (1002, { t with mode := oldt })
            else if seq1 = 67 then (1003, { t with mode := oldt })
            else if seq1 = 68 then (1004, { t with mode := oldt })
            else (27, { t with mode := oldt })
          else (27, { t with mode := oldt })
        | _ => (27, { t with mode := oldt })
      else (27, { t with mode := oldt })
    else ((c : Int), { t with mode := oldt })

/-- Where the loop of `runEditor` stands. -/
inductive Loop where
  /-- an out-of-range access happened -/
  | undefined
  /-- the loop has left through `break` -/
  | exited (s : Editor) (t : Terminal)
  /-- the loop is about to call `readKey` -/
  | running (s : Editor) (t : Terminal)
  deriving DecidableEq, Repr

/-- Source: `runEditor`, the loop `while (true)` with its calls of `readKey`,
for at most the given number of iterations; `envs i` holds the answers of the
prompt and of the file system during iteration `i`.  (The bytes the prompt
reads through `std::cin` are not taken from the `Terminal`.) -/
def runEditor : Nat → (Nat → Env) → Editor → Terminal → Loop
  | 0, _, s, t => .running s t
  | n + 1, envs, s, t =>
    match readKey t with
    | (key, t') =>
      match handleKey (envs 0) key s with
      | .undefined => .undefined
      | .terminated => .exited s t'
      | .continue s' _ => runEditor n (fun i => envs (i + 1)) s' t'

/-! ## The words of the specification -/

/-- From the specification (section 4.4, "decimal digits"): the decimal numeral
of `n` in ASCII, most significant digit first, read off Mathlib's
`Nat.digits`. -/
def numeral (n : Nat) : List Nat :=
  if n = 0 then [48] else ((Nat.digits 10 n).reverse).map (fun d => d + 48)

/-- From the specification (section 4.4): one rendered line, the 1-based line
number `i` right-aligned with spaces in a field of width `w`, then `". "`, the
content and a newline. -/
def numberedLine (w i : Nat) (line : Line) : List Nat :=
  List.replicate (w - (numeral i).length) 32 ++ numeral i ++ [46, 32] ++ line ++ [10]

/-- From the specification (section 4.3, "replaced by the loaded content"): the
lines `ls` are the newline-delimited lines of `stream`, that is, no line holds a
newline, and `stream` is the lines each followed by a newline, the newline of
a non-empty last line possibly missing. -/
def Delimits (ls : List Line) (stream : List Nat) : Prop :=
  (∀ l ∈ ls, 10 ∉ l) ∧
    (stream = ls.flatMap (fun l => l ++ [10]) ∨
      ∃ init last, last ≠ [] ∧ ls = init ++ [last] ∧
        stream = init.flatMap (fun l => l ++ [10]) ++ last)

theorem set_insertIdx_succ {α : Type} (l : List α) (n : Nat) (a b : α) (h : n < l.length) :
    (l.set n a).insertIdx (n + 1) b = l.take n ++ a :: b :: l.drop (n + 1) := by
  induction l generalizing n with
  | nil => simp at h
  | cons x xs ih =>
    cases n with
    | zero => simp [List.insertIdx_succ_cons, List.insertIdx_zero]
    | succ m =>
      have hm : m < xs.length := by simpa using h
      simp [List.insertIdx_succ_cons, ih m hm]

theorem insertIdx_eq_take_drop {α : Type} (l : List α) (n : Nat) (c : α) (h : n ≤ l.length) :
    l.insertIdx n c = l.take n ++ c :: l.drop n := by
  induction l generalizing n with
  | nil =>
    have : n = 0 := by simpa using h
    subst this
    simp [List.insertIdx_zero]
  | cons x xs ih =>
    cases n with
    | zero => simp [List.insertIdx_zero]
    | succ m =>
      have hm : m ≤ xs.length := by simpa using h
      simp [List.insertIdx_succ_cons, ih m hm]

theorem getlineAux_length (stream : List Nat) (acc : Line) :
    (getlineAux stream acc).2.length ≤ stream.length := by
  induction stream generalizing acc with
  | nil => simp [getlineAux]
  | cons c rest ih =>
    by_cases hc : c = 10
    · simp [getlineAux, hc]
    · have := ih (acc ++ [c])
      simp only [getlineAux, hc, if_false, List.length_cons]
      omega

theorem getline_length {stream : List Nat} {line : Line} {rest : List Nat}
    (h : getline stream = some (line, rest)) : rest.length < stream.length := by
  cases stream with
  | nil => simp [getline] at h
  | cons c tail =>
    simp only [getline, Option.some.injEq] at h
    by_cases hc : c = 10
    · simp [getlineAux, hc] at h
      simp [← h.2]
    · have hlen := getlineAux_length tail ([] ++ [c])
      simp only [getlineAux, hc, if_false] at h
      rw [h] at hlen
      simp only [List.length_cons]
      exact Nat.lt_succ_of_le hlen

/-- Any two bounds above the length of the stream give the same lines: the loop
of `loadFromFile` ends because `getline` fails, not because of the bound. -/
theorem readLines_fuel (m n : Nat) (stream : List Nat) (lines : List Line)
    (hm : stream.length < m) (hn : stream.length < n) :
    readLines m stream lines = readLines n stream lines := by
  induction m generalizing n stream lines with
  | zero => omega
  | succ m ih =>
    cases n with
    | zero => omega
    | succ n =>
      cases hget : getline stream with
      | none => simp [readLines, hget]
      | some r =>
        obtain ⟨line, rest⟩ := r
        have hlt := getline_length hget
        simp only [readLines, hget]
        exact ih n rest _ (by omega) (by omega)

/-! ## States whose cursor is in bounds -/

theorem lineAt_natCast (lines : List Line) (L : Nat) : lineAt lines (L : Int) = lines[L]? := by
  simp [lineAt]

/-- In an in-bounds state the cursor is a line index `L` below the line count
and an offset `p` of at most the length of line `L`. -/
theorem InBounds.cases {s : Editor} (h : InBounds s) :
    ∃ (L p : Nat) (line : Line), s.curLine = L ∧ s.curPos = p ∧ L < s.lines.length ∧
      s.lines[L]? = some line ∧ p ≤ line.length ∧ s.lines.getD L [] = line := by
  obtain ⟨lines, curLine, curPos⟩ := s
  obtain ⟨h1, h2, h3, h4⟩ := h
  simp only [lineLength] at h1 h2 h3 h4
  obtain ⟨L, rfl⟩ := Int.eq_ofNat_of_zero_le h1
  obtain ⟨p, rfl⟩ := Int.eq_ofNat_of_zero_le h3
  have hL : L < lines.length := by exact_mod_cast h2
  refine ⟨L, p, lines[L], rfl, rfl, hL, by simp [hL], ?_, by simp [hL]⟩
  simp [hL] at h4
  exact h4

theorem handleKey_enter (env : Env) (s : Editor) {key : Int} (h : key = 10 ∨ key = 13) :
    handleKey env key s = rendered (splitLineAtCursor s) none := by
  rcases h with rfl | rfl <;> simp [handleKey]

theorem handleKey_char (env : Env) (s : Editor) {key : Int} (h : 32 ≤ key ∧ key ≤ 126) :
    handleKey env key s = rendered (insertChar s key) none := by
  have h1 : key ≠ 27 := by omega
  have h2 : key ≠ 19 := by omega
  have h3 : key ≠ 15 := by omega
  have h4 : key ≠ 10 := by omega
  have h5 : key ≠ 13 := by omega
  have h6 : key ≠ 8 := by omega
  have h7 : key ≠ 127 := by omega
  have h8 : ¬ (1001 ≤ key ∧ key ≤ 1004) := by omega
  simp only [handleKey, h1, h2, h3, h4, h5, h6, h7, h8, if_false, or_self, ge_iff_le, h.1, h.2,
    and_self, if_true]

theorem handleKey_other (env : Env) (s : Editor) {key : Int} (k27 : key ≠ 27) (k19 : key ≠ 19)
    (k15 : key ≠ 15) (kenter : ¬ (key = 10 ∨ key = 13)) (kback : ¬ (key = 8 ∨ key = 127))
    (karrow : ¬ (1001 ≤ key ∧ key ≤ 1004)) (kchar : ¬ (32 ≤ key ∧ key ≤ 126)) :
    handleKey env key s = .continue s { screen := [], written := none } := by
  simp only [handleKey, k27, k19, k15, kenter, kback, ge_iff_le, karrow, kchar, if_false]

theorem handleKey_save (env : Env) (s : Editor) :
    handleKey env 19 s = .continue initial (drawn initial (saveToFile s.lines env)) := by
  simp [handleKey, rendered, initial]

/-! ## The branches on in-bounds states -/

theorem splitLineAtCursor_eq {lines : List Line} {L p : Nat} {line : Line}
    (hline : lines[L]? = some line) (hp : p ≤ line.length) :
    splitLineAtCursor ⟨lines, L, p⟩
      = some ⟨lines.take L ++ line.take p :: line.drop p :: lines.drop (L + 1), L + 1, 0⟩ := by
  obtain ⟨hL, -⟩ := List.getElem?_eq_some_iff.mp hline
  simp [splitLineAtCursor, lineAt_natCast, hline, substrFrom, substrTo, hp,
    set_insertIdx_succ _ _ _ _ hL]

theorem insertChar_eq {lines : List Line} {L p : Nat} {line : Line} (key : Int)
    (hline : lines[L]? = some line) (hp : p ≤ line.length) :
    insertChar ⟨lines, L, p⟩ key
      = some ⟨lines.take L ++ (line.take p ++ key.toNat :: line.drop p) :: lines.drop (L + 1),
          L, p + 1⟩ := by
  obtain ⟨hL, -⟩ := List.getElem?_eq_some_iff.mp hline
  simp [insertChar, lineAt_natCast, hline, insertAt, hp, insertIdx_eq_take_drop _ _ _ hp,
    List.set_eq_take_append_cons_drop, hL]

theorem inBounds_nat {lines : List Line} {L p : Nat} (h : InBounds ⟨lines, L, p⟩) :
    ∃ line, lines[L]? = some line ∧ p ≤ line.length ∧ lines.getD L [] = line ∧
      L < lines.length := by
  obtain ⟨L', p', line, h1, h2, hL, hline, hp, hget⟩ := h.cases
  simp only at h1 h2 hL hline hget
  have e1 : L = L' := by exact_mod_cast h1
  have e2 : p = p' := by exact_mod_cast h2
  subst e1 e2
  exact ⟨line, hline, hp, hget, hL⟩

/-! ## The claims -/

/-- C3 (the code at the failing input): with the document `["hi"]` and the
cursor at `(0,2)`, key 19 answered by an empty file name, or by a name whose
file cannot be opened for writing, writes no file and still resets the document
to `[""]` and the cursor to `(0,0)`. -/
theorem save_failure_resets_document :
    saveToFile [[104, 105]] ⟨[], true, none⟩ = none ∧
    handleKey ⟨[], true, none⟩ 19 ⟨[[104, 105]], 0, 2⟩
      = .continue ⟨[[]], 0, 0⟩ (drawn ⟨[[]], 0, 0⟩ none) ∧
    saveToFile [[104, 105]] ⟨[120], false, none⟩ = none ∧
    handleKey ⟨[120], false, none⟩ 19 ⟨[[104, 105]], 0, 2⟩
      = .continue ⟨[[]], 0, 0⟩ (drawn ⟨[[]], 0, 0⟩ none) := by
  decide

/-- C4: in every state, key 15 answered by an empty file name or by a name
whose file cannot be opened makes `loadFromFile` return `false` and leaves the
document and the cursor as they were (and nothing is drawn). -/
theorem open_failure_keeps_state (env : Env) (s : Editor)
    (h : env.filename = [] ∨ env.content = none) :
    (loadFromFile s env).1 = false ∧
      handleKey env 15 s = .continue s { screen := [], written := none } := by
  have hload : loadFromFile s env = (false, s) := by
    unfold loadFromFile
    rcases h with h | h
    · simp [h]
    · simp [h]
  simp [handleKey, hload]

/-- Witness of C4: the document `["hi"]`, cursor `(0,2)`, once with an empty
file name and once with the name `x` of a file that does not open. -/
theorem open_failure_keeps_state_witness :
    handleKey ⟨[], true, some [97, 10]⟩ 15 ⟨[[104, 105]], 0, 2⟩
        = .continue ⟨[[104, 105]], 0, 2⟩ { screen := [], written := none } ∧
      handleKey ⟨[120], true, none⟩ 15 ⟨[[104, 105]], 0, 2⟩
        = .continue ⟨[[104, 105]], 0, 2⟩ { screen := [], written := none } :=
  ⟨(open_failure_keeps_state ⟨[], true, some [97, 10]⟩ ⟨[[104, 105]], 0, 2⟩ (Or.inl rfl)).2,
   (open_failure_keeps_state ⟨[120], true, none⟩ ⟨[[104, 105]], 0, 2⟩ (Or.inr rfl)).2⟩

/-- C6: Enter (key 10 or 13) in an in-bounds state `(lines, L, p)`: line `L`
becomes the first `p` bytes of the old line `L`, a new line with the old
line from byte `p` to its end is inserted at index `L + 1`, the other lines
keep their content and order (one line more), and the cursor is `(L + 1, 0)`. -/
theorem splitLineAtCursor_spec (env : Env) (key : Int) (lines : List Line) (L p : Nat)
    (hkey : key = 10 ∨ key = 13) (h : InBounds ⟨lines, L, p⟩) :
    ∃ s', handleKey env key ⟨lines, L, p⟩ = .continue s' (drawn s' none) ∧
      s' = ⟨lines.take L
          ++ (lines.getD L []).take p :: (lines.getD L []).drop p :: lines.drop (L + 1),
          (L : Int) + 1, 0⟩ ∧
      s'.lines.length = lines.length + 1 := by
  obtain ⟨line, hline, hp, hget, hL⟩ := inBounds_nat h
  rw [handleKey_enter env _ hkey, hget]
  refine ⟨_, ?_, rfl, ?_⟩
  · have hsplit := splitLineAtCursor_eq hline hp
    simp only [Nat.cast_zero] at hsplit
    rw [hsplit]
    rfl
  · simp
    omega

/-- Witness of C6 (scenario B of the specification): Enter in `["hi"]` at
`(0,2)` gives `["hi", ""]` with the cursor at `(1,0)`. -/
theorem splitLineAtCursor_spec_witness :
    InBounds ⟨[[104, 105]], 0, 2⟩ ∧
      handleKey ⟨[], false, none⟩ 13 ⟨[[104, 105]], 0, 2⟩
        = .continue ⟨[[104, 105], []], 1, 0⟩ (drawn ⟨[[104, 105], []], 1, 0⟩ none) := by
  refine ⟨by decide, ?_⟩
  obtain ⟨s', hs', hstate, -⟩ :=
    splitLineAtCursor_spec ⟨[], false, none⟩ 13 [[104, 105]] 0 2 (Or.inr rfl) (by decide)
  refine hs'.trans ?_
  rw [hstate]
  decide

/-- C10: in every state, key 19 answered by a non-empty file name whose file
opens for writing writes every line followed by a newline, resets the document
to the single empty line `[""]` and the cursor to `(0,0)`; a following key `c`
with `32 <= c <= 126` then gives the document `[[c]]` with the cursor at
`(0,1)`. -/
theorem save_success_resets (env env' : Env) (s : Editor) (c : Nat)
    (hname : env.filename ≠ []) (hopen : env.canWrite = true) (hc : 32 ≤ c ∧ c ≤ 126) :
    handleKey env 19 s = .continue ⟨[[]], 0, 0⟩
        (drawn ⟨[[]], 0, 0⟩ (some (s.lines.flatMap fun line => line ++ [10]))) ∧
      handleKey env' (c : Int) ⟨[[]], 0, 0⟩
        = .continue ⟨[[c]], 0, 1⟩ (drawn ⟨[[c]], 0, 1⟩ none) := by
  constructor
  · rw [handleKey_save]
    have hbytes : bytes "\n" = [10] := by decide
    simp [saveToFile, hname, hopen, initial, hbytes]
  · have hkey : (32 : Int) ≤ (c : Int) ∧ (c : Int) ≤ 126 := by omega
    have hline : ([[]] : List Line)[0]? = some [] := rfl
    have hins := @insertChar_eq [[]] 0 0 [] (c : Int) hline (le_refl _)
    simp only [Nat.cast_zero, Int.toNat_ofNat] at hins
    rw [handleKey_char env' _ hkey, hins]
    simp [rendered]

/-- Witness of C10 (scenario F of the specification): a successful save of
`["hi"]` writes `hi` and a newline and resets the editor; `x` then gives
`["x"]` with the cursor at `(0,1)`. -/
theorem save_success_resets_witness :
    handleKey ⟨[102], true, none⟩ 19 ⟨[[104, 105]], 0, 2⟩
        = .continue ⟨[[]], 0, 0⟩ (drawn ⟨[[]], 0, 0⟩ (some [104, 105, 10])) ∧
      handleKey ⟨[], false, none⟩ 120 ⟨[[]], 0, 0⟩
        = .continue ⟨[[120]], 0, 1⟩ (drawn ⟨[[120]], 0, 1⟩ none) :=
  save_success_resets ⟨[102], true, none⟩ ⟨[], false, none⟩ ⟨[[104, 105]], 0, 2⟩ 120
    (by decide) rfl (by decide)

/-! ## The key decoder -/

theorem read1_mode (t : Terminal) (m : Termios) :
    read1 { t with mode := m } = ((read1 t).1, { (read1 t).2 with mode := m }) := by
  obtain ⟨mode, avail, later⟩ := t
  cases avail with
  | cons c rest => rfl
  | nil =>
    cases later with
    | nil => rfl
    | cons burst more => rfl

theorem read1_keeps_mode (t : Terminal) : (read1 t).2.mode = t.mode := by
  obtain ⟨mode, avail, later⟩ := t
  cases avail with
  | cons c rest => rfl
  | nil =>
    cases later with
    | nil => rfl
    | cons burst more => rfl

theorem readKey_mode (t : Terminal) : (readKey t).2.mode = t.mode := by
  simp only [readKey]
  split
  · rfl
  · split_ifs
    · split
      · split_ifs <;> rfl
      · rfl
    · rfl
    · rfl

theorem readKey_failure {t : Terminal} (h : (read1 t).1 = none) :
    readKey t = (0, { (read1 t).2 with mode := t.mode }) := by
  simp only [readKey, read1_mode]
  rcases hr : read1 t with ⟨r, t1⟩
  rw [hr] at h
  simp only at h
  subst h
  rfl

theorem readKey_ordinary {t t1 : Terminal} {c : Nat} (h : read1 t = (some c, t1))
    (hc : c ≠ 27) : readKey t = ((c : Int), t1) := by
  have hmode : t1.mode = t.mode := by
    have := read1_keeps_mode t
    rw [h] at this
    exact this
  simp only [readKey, read1_mode, h, hc, if_false]
  rw [← hmode]

theorem readKey_escape_pair {t t1 : Terminal} {a b : Nat} {rest : List Nat}
    (h : read1 t = (some 27, t1)) (havail : t1.avail = a :: b :: rest) :
    readKey t = ((if a = 91 ∧ b = 65 then 1001 else if a = 91 ∧ b = 66 then 1002
      else if a = 91 ∧ b = 67 then 1003 else if a = 91 ∧ b = 68 then 1004 else 27 : Int),
      { t1 with avail := rest }) := by
  have hmode : t1.mode = t.mode := by
    have := read1_keeps_mode t
    rw [h] at this
    exact this
  obtain ⟨mode1, avail1, later1⟩ := t1
  simp only at havail hmode
  subst havail hmode
  simp only [readKey, read1_mode, h, if_true, List.length_cons, ge_iff_le]
  have h2 : 2 ≤ rest.length + 1 + 1 := by omega
  simp only [h2, if_true]
  by_cases ha : a = 91
  · by_cases h65 : b = 65
    · simp [ha, h65]
    · by_cases h66 : b = 66
      · simp [ha, h66]
      · by_cases h67 : b = 67
        · simp [ha, h67]
        · by_cases h68 : b = 68
          · simp [ha, h68]
          · simp [ha, h65, h66, h67, h68]
  · simp [ha]

theorem readKey_escape_short {t t1 : Terminal} (h : read1 t = (some 27, t1))
    (havail : t1.avail.length < 2) : readKey t = (27, t1) := by
  have hmode : t1.mode = t.mode := by
    have := read1_keeps_mode t
    rw [h] at this
    exact this
  have h2 : ¬ (2 ≤ t1.avail.length) := by omega
  simp only [readKey, read1_mode, h, if_true, ge_iff_le, h2, if_false]
  rw [← hmode]

theorem runEditor_exhausted (n : Nat) (envs : Nat → Env) (s : Editor) (mode : Termios) :
    runEditor n envs s ⟨mode, [], []⟩ = .running s ⟨mode, [], []⟩ := by
  induction n generalizing envs with
  | zero => rfl
  | succ n ih =>
    have hkey : readKey ⟨mode, [], []⟩ = (0, ⟨mode, [], []⟩) := rfl
    have hignored : handleKey (envs 0) 0 s = .continue s { screen := [], written := none } :=
      handleKey_other (envs 0) s (by decide) (by decide) (by decide) (by decide) (by decide)
        (by decide) (by decide)
    simp only [runEditor, hkey, hignored]
    exact ih _

theorem runEditor_mode (n : Nat) (envs : Nat → Env) (s : Editor) (t : Terminal) :
    ∀ s' t', (runEditor n envs s t = .exited s' t' ∨ runEditor n envs s t = .running s' t') →
      t'.mode = t.mode := by
  induction n generalizing envs s t with
  | zero =>
    intro s' t' h
    simp only [runEditor] at h
    rcases h with h | h
    · cases h
    · cases h
      rfl
  | succ n ih =>
    intro s' t' h
    have hmode := readKey_mode t
    rcases hkey : readKey t with ⟨key, t1⟩
    rw [hkey] at hmode
    simp only [runEditor, hkey] at h
    rcases hout : handleKey (envs 0) key s with _ | _ | ⟨s1, eff⟩
    · rw [hout] at h
      rcases h with h | h <;> cases h
    · rw [hout] at h
      rcases h with h | h
      · cases h
        exact hmode
      · cases h
    · rw [hout] at h
      exact (ih _ s1 t1 s' t' h).trans hmode

/-- C13 (as stated, refuted): on an input that is at its end the key decoder
returns 0, which is not the Escape key 27, and the loop of `runEditor` started
in the initial state never leaves through `break`, however many iterations it
runs. -/
theorem read_failure_not_escape :
    (readKey ⟨⟨true, true, 0⟩, [], []⟩).1 = 0 ∧
      ¬ ∃ n s t, runEditor n (fun _ => ⟨[], false, none⟩) initial ⟨⟨true, true, 0⟩, [], []⟩
        = .exited s t := by
  refine ⟨rfl, ?_⟩
  rintro ⟨n, s, t, h⟩
  rw [runEditor_exhausted] at h
  cases h

/-- C13 (amended): when `read` returns a value `<= 0` the key decoder returns
the key 0, with the terminal settings as they were; the loop handles key 0 as
an ignored key (document and cursor unchanged, nothing drawn) and goes on to
the next read: after any number of iterations on an input at its end the loop
is still running, in the state it started from. -/
theorem read_failure_is_ignored (n : Nat) (envs : Nat → Env) (s : Editor) (mode : Termios) :
    readKey ⟨mode, [], []⟩ = (0, ⟨mode, [], []⟩) ∧
      handleKey (envs 0) 0 s = .continue s { screen := [], written := none } ∧
      runEditor n envs s ⟨mode, [], []⟩ = .running s ⟨mode, [], []⟩ :=
  ⟨rfl,
    handleKey_other (envs 0) s (by decide) (by decide) (by decide) (by decide) (by decide)
      (by decide) (by decide),
    runEditor_exhausted n envs s mode⟩

/-- C14: when the key decoder reads byte 27 and two more bytes `a`, `b` wait in
the input queue, it takes all three bytes and returns one key: 1001 (ArrowUp)
for `[A`, 1002 (ArrowDown) for `[B`, 1003 (ArrowRight) for `[C`, 1004
(ArrowLeft) for `[D`, and 27 (Escape) for every other pair; when no byte waits
after the 27 it returns 27 and takes nothing more. -/
theorem escape_sequence_decoding (t t1 : Terminal) (hread : read1 t = (some 27, t1)) :
    (∀ a b rest, t1.avail = a :: b :: rest →
      readKey t = ((if a = 91 ∧ b = 65 then 1001 else if a = 91 ∧ b = 66 then 1002
        else if a = 91 ∧ b = 67 then 1003 else if a = 91 ∧ b = 68 then 1004 else 27 : Int),
        { t1 with avail := rest })) ∧
    (t1.avail = [] → readKey t = (27, t1)) :=
  ⟨fun _ _ _ havail => readKey_escape_pair hread havail,
    fun hnone => readKey_escape_short hread (by simp [hnone])⟩

/-- Witness of C14 (scenario E of the specification): the bytes 27, `[`, `A`
arriving together give the single key 1001 and leave the queue empty; a 27
arriving alone gives 27. -/
theorem escape_sequence_decoding_witness :
    readKey ⟨⟨true, true, 0⟩, [27, 91, 65], []⟩ = (1001, ⟨⟨true, true, 0⟩, [], []⟩) ∧
      readKey ⟨⟨true, true, 0⟩, [27], [(91, [65])]⟩
        = (27, ⟨⟨true, true, 0⟩, [], [(91, [65])]⟩) :=
  ⟨(escape_sequence_decoding ⟨⟨true, true, 0⟩, [27, 91, 65], []⟩
      ⟨⟨true, true, 0⟩, [91, 65], []⟩ rfl).1 91 65 [] rfl,
    (escape_sequence_decoding ⟨⟨true, true, 0⟩, [27], [(91, [65])]⟩
      ⟨⟨true, true, 0⟩, [], [(91, [65])]⟩ rfl).2 rfl⟩

/-- C15: a byte `b` that is none of 27, 19, 15, 10, 13, 8, 127 and not in
`32..126` is returned by the key decoder as the key `b`, and the loop body
leaves the document and the cursor as they were and draws nothing. -/
theorem ignored_byte_no_effect (env : Env) (s : Editor) (t t1 : Terminal) (b : Nat)
    (hread : read1 t = (some b, t1)) (hbyte : b ≤ 255)
    (hb : b ≠ 27 ∧ b ≠ 19 ∧ b ≠ 15 ∧ b ≠ 10 ∧ b ≠ 13 ∧ b ≠ 8 ∧ b ≠ 127 ∧ ¬ (32 ≤ b ∧ b ≤ 126)) :
    readKey t = ((b : Int), t1) ∧
      handleKey env (b : Int) s = .continue s { screen := [], written := none } := by
  obtain ⟨h27, h19, h15, h10, h13, h8, h127, hchar⟩ := hb
  refine ⟨readKey_ordinary hread h27, ?_⟩
  exact handleKey_other env s (by omega) (by omega) (by omega) (by omega) (by omega) (by omega)
    (by omega)

/-- Witness of C15: the byte 9 (Tab) read in the state `["hi"]`, `(0,2)`. -/
theorem ignored_byte_no_effect_witness :
    readKey ⟨⟨true, true, 0⟩, [9, 104], []⟩ = (9, ⟨⟨true, true, 0⟩, [104], []⟩) ∧
      handleKey ⟨[], false, none⟩ 9 ⟨[[104, 105]], 0, 2⟩
        = .continue ⟨[[104, 105]], 0, 2⟩ { screen := [], written := none } :=
  ignored_byte_no_effect ⟨[], false, none⟩ ⟨[[104, 105]], 0, 2⟩
    ⟨⟨true, true, 0⟩, [9, 104], []⟩ ⟨⟨true, true, 0⟩, [104], []⟩ 9 rfl (by decide) (by decide)

/-- C18: with the terminal settings as a field of the state, the settings after
a call of the key decoder are the settings before it, whatever it read (nothing,
an arrow sequence, a lone or unfinished escape, an ordinary byte); hence the
settings at an exit of the loop are those the loop started with. -/
theorem raw_mode_restored (t : Terminal) :
    (readKey t).2.mode = t.mode ∧
      ∀ n envs s s' t', runEditor n envs s t = .exited s' t' → t'.mode = t.mode :=
  ⟨readKey_mode t, fun n envs s s' t' h => runEditor_mode n envs s t s' t' (Or.inl h)⟩

/-- Witness of C18: the keys `h`, ArrowUp, Escape typed on a terminal in
canonical mode with echo; the loop exits with the terminal in that mode. -/
theorem raw_mode_restored_witness :
    runEditor 3 (fun _ => ⟨[], false, none⟩) initial ⟨⟨true, true, 7⟩, [104], [(27, [91, 65]), (27, [])]⟩
        = .exited ⟨[[104]], 0, 1⟩ ⟨⟨true, true, 7⟩, [], []⟩ ∧
      (⟨⟨true, true, 7⟩, [], []⟩ : Terminal).mode = ⟨true, true, 7⟩ :=
  ⟨by decide,
    (raw_mode_restored ⟨⟨true, true, 7⟩, [104], [(27, [91, 65]), (27, [])]⟩).2 3
      (fun _ => ⟨[], false, none⟩) initial ⟨[[104]], 0, 1⟩ ⟨⟨true, true, 7⟩, [], []⟩ (by decide)⟩

/-! ## Reading and writing a file -/

theorem bytes_newline : bytes "\n" = [10] := by decide

theorem getlineAux_newline (l rest : List Nat) (acc : Line) (hl : 10 ∉ l) :
    getlineAux (l ++ 10 :: rest) acc = (acc ++ l, rest) := by
  induction l generalizing acc with
  | nil => simp [getlineAux]
  | cons c cs ih =>
    have hc : c ≠ 10 := fun h => hl (by simp [h])
    have hcs : 10 ∉ cs := fun h => hl (by simp [h])
    simp [getlineAux, hc, ih _ hcs]

theorem getlineAux_end (l : List Nat) (acc : Line) (hl : 10 ∉ l) :
    getlineAux l acc = (acc ++ l, []) := by
  induction l generalizing acc with
  | nil => simp [getlineAux]
  | cons c cs ih =>
    have hc : c ≠ 10 := fun h => hl (by simp [h])
    have hcs : 10 ∉ cs := fun h => hl (by simp [h])
    simp [getlineAux, hc, ih _ hcs]

/-- A stream has a first newline, or none. -/
theorem first_newline (stream : List Nat) :
    10 ∉ stream ∨ ∃ l rest, 10 ∉ l ∧ stream = l ++ 10 :: rest := by
  induction stream with
  | nil => exact Or.inl (by simp)
  | cons c cs ih =>
    by_cases hc : c = 10
    · exact Or.inr ⟨[], cs, by simp, by simp [hc]⟩
    · rcases ih with h | ⟨l, rest, hl, hcs⟩
      · refine Or.inl ?_
        simp only [List.mem_cons, not_or]
        exact ⟨fun h => hc h.symm, h⟩
      · refine Or.inr ⟨c :: l, rest, ?_, by simp [hcs]⟩
        simp only [List.mem_cons, not_or]
        exact ⟨fun h => hc h.symm, hl⟩

theorem getline_of_ne_nil {stream : List Nat} (h : stream ≠ []) :
    getline stream = some (getlineAux stream []) := by
  cases stream with
  | nil => exact absurd rfl h
  | cons c cs => rfl

theorem delimits_cons {l : Line} {ls : List Line} {rest : List Nat} (hl : 10 ∉ l)
    (h : Delimits ls rest) : Delimits (l :: ls) (l ++ 10 :: rest) := by
  obtain ⟨hall, hform⟩ := h
  refine ⟨?_, ?_⟩
  · intro x hx
    rcases List.mem_cons.mp hx with rfl | hx
    · exact hl
    · exact hall x hx
  · rcases hform with h | ⟨init, last, hlast, hls, hrest⟩
    · exact Or.inl (by simp [h])
    · exact Or.inr ⟨l :: init, last, hlast, by simp [hls], by simp [hrest]⟩

theorem readLines_delimits (fuel : Nat) (stream : List Nat) (acc : List Line)
    (hfuel : stream.length < fuel) :
    ∃ ls, readLines fuel stream acc = acc ++ ls ∧ Delimits ls stream := by
  induction fuel generalizing stream acc with
  | zero => omega
  | succ fuel ih =>
    by_cases hnil : stream = []
    · subst hnil
      exact ⟨[], by simp [readLines, getline], by simp, Or.inl rfl⟩
    · have hget := getline_of_ne_nil hnil
      rcases first_newline stream with hnone | ⟨l, rest, hl, hstream⟩
      · refine ⟨[stream], ?_, ?_, Or.inr ⟨[], stream, hnil, rfl, rfl⟩⟩
        · rw [readLines, hget, getlineAux_end stream [] hnone]
          cases fuel with
          | zero => simp [readLines]
          | succ k => simp [readLines, getline]
        · intro x hx
          rw [List.mem_singleton.mp hx]
          exact hnone
      · subst hstream
        have hlen : rest.length < fuel := by
          simp only [List.length_append, List.length_cons] at hfuel
          omega
        obtain ⟨ls, hread, hdel⟩ := ih rest (acc ++ [l]) hlen
        refine ⟨l :: ls, ?_, delimits_cons hl hdel⟩
        rw [readLines, hget, getlineAux_newline l rest [] hl]
        simp [hread]

theorem readLines_saved (lines : List Line) (fuel : Nat) (acc : List Line)
    (hnl : ∀ l ∈ lines, 10 ∉ l)
    (hfuel : (lines.flatMap (fun l => l ++ [10])).length < fuel) :
    readLines fuel (lines.flatMap (fun l => l ++ [10])) acc = acc ++ lines := by
  induction lines generalizing fuel acc with
  | nil =>
    cases fuel with
    | zero => simp [readLines]
    | succ k => simp [readLines, getline]
  | cons l ls ih =>
    cases fuel with
    | zero => omega
    | succ k =>
      have hl : 10 ∉ l := hnl l (by simp)
      have hls : ∀ x ∈ ls, 10 ∉ x := fun x hx => hnl x (by simp [hx])
      have hstream : (l :: ls).flatMap (fun l => l ++ [10])
          = l ++ 10 :: ls.flatMap (fun l => l ++ [10]) := by simp
      rw [hstream] at hfuel ⊢
      have hne : l ++ 10 :: ls.flatMap (fun l => l ++ [10]) ≠ [] := by simp
      have hlen : (ls.flatMap (fun l => l ++ [10])).length < k := by
        simp only [List.length_append, List.length_cons] at hfuel
        omega
      rw [readLines, getline_of_ne_nil hne, getlineAux_newline l _ [] hl]
      simp [ih k (acc ++ [l]) hls hlen]

theorem loadFromFile_saved (s : Editor) (env : Env) (lines : List Line) (hne : lines ≠ [])
    (hnl : ∀ l ∈ lines, 10 ∉ l) (hname : env.filename ≠ [])
    (hcontent : env.content = some (lines.flatMap (fun l => l ++ [10]))) :
    loadFromFile s env = (true, ⟨lines, 0, 0⟩) := by
  have hread := readLines_saved lines ((lines.flatMap (fun l => l ++ [10])).length + 1) [] hnl
    (Nat.lt_succ_self _)
  simp only [List.nil_append] at hread
  simp only [loadFromFile, hname, hcontent, if_false, hread, hne]

theorem saveToFile_eq (lines : List Line) (env : Env) (hname : env.filename ≠ [])
    (hopen : env.canWrite = true) :
    saveToFile lines env = some (lines.flatMap (fun l => l ++ [10])) := by
  simp [saveToFile, hname, hopen, bytes_newline]

/-- C11: in every state, key 15 answered by a non-empty name of a file that
opens makes `loadFromFile` return `true` and replaces the document by the
newline-delimited lines of the file (whatever the document was before), or by
the single empty line `[""]` when the file has no line, with the cursor at
`(0,0)`; the new state is drawn. -/
theorem open_success_replaces_document (env : Env) (stream : List Nat)
    (hname : env.filename ≠ []) (hcontent : env.content = some stream) :
    ∃ ls, Delimits ls stream ∧ ∀ s, (loadFromFile s env).1 = true ∧
      handleKey env 15 s = .continue ⟨if ls = [] then [[]] else ls, 0, 0⟩
        (drawn ⟨if ls = [] then [[]] else ls, 0, 0⟩ none) := by
  obtain ⟨ls, hread, hdel⟩ := readLines_delimits (stream.length + 1) stream []
    (Nat.lt_succ_self _)
  simp only [List.nil_append] at hread
  refine ⟨ls, hdel, fun s => ?_⟩
  have hload : loadFromFile s env = (true, ⟨if ls = [] then [[]] else ls, 0, 0⟩) := by
    simp only [loadFromFile, hname, hcontent, if_false, hread]
    by_cases hls : ls = []
    · simp [hls]
    · simp [hls]
  simp [handleKey, hload, rendered]

/-- Witness of C11: the file `a\nb` opened over the document `["hi"]` gives the
document `["a", "b"]`, an empty file gives `[""]`, both with the cursor at
`(0,0)`. -/
theorem open_success_replaces_document_witness :
    (∃ ls, Delimits ls [97, 10, 98] ∧ ∀ s,
      (loadFromFile s ⟨[120], false, some [97, 10, 98]⟩).1 = true ∧
      handleKey ⟨[120], false, some [97, 10, 98]⟩ 15 s
        = .continue ⟨if ls = [] then [[]] else ls, 0, 0⟩
            (drawn ⟨if ls = [] then [[]] else ls, 0, 0⟩ none)) ∧
      handleKey ⟨[120], false, some [97, 10, 98]⟩ 15 ⟨[[104, 105]], 0, 2⟩
        = .continue ⟨[[97], [98]], 0, 0⟩ (drawn ⟨[[97], [98]], 0, 0⟩ none) ∧
      handleKey ⟨[120], false, some []⟩ 15 ⟨[[104, 105]], 0, 2⟩
        = .continue ⟨[[]], 0, 0⟩ (drawn ⟨[[]], 0, 0⟩ none) :=
  ⟨open_success_replaces_document ⟨[120], false, some [97, 10, 98]⟩ [97, 10, 98] (by decide) rfl,
    by decide, by decide⟩

/-- C12: for a non-empty sequence of lines none of which holds a newline, the
bytes `saveToFile` writes are the lines each followed by one newline, and
`loadFromFile` on a file with these bytes returns `true` with exactly the
saved lines as the document (and the cursor at `(0,0)`). -/
theorem save_load_round_trip (lines : List Line) (env env' : Env) (s : Editor)
    (hne : lines ≠ []) (hnl : ∀ l ∈ lines, 10 ∉ l)
    (hname : env.filename ≠ []) (hopen : env.canWrite = true)
    (hname' : env'.filename ≠ []) (hfile : env'.content = saveToFile lines env) :
    saveToFile lines env = some (lines.flatMap (fun l => l ++ [10])) ∧
      loadFromFile s env' = (true, ⟨lines, 0, 0⟩) := by
  have hsave := saveToFile_eq lines env hname hopen
  rw [hsave] at hfile
  exact ⟨hsave, loadFromFile_saved s env' lines hne hnl hname' hfile⟩

/-- Witness of C12: the document `[""]` is written as one newline and read back
as `[""]`. -/
theorem save_load_round_trip_witness :
    saveToFile [[]] ⟨[120], true, none⟩ = some [10] ∧
      loadFromFile ⟨[[104, 105]], 0, 2⟩ ⟨[120], false, some [10]⟩ = (true, ⟨[[]], 0, 0⟩) :=
  save_load_round_trip [[]] ⟨[120], true, none⟩ ⟨[120], false, some [10]⟩ ⟨[[104, 105]], 0, 2⟩
    (by decide) (by decide) (by decide) rfl (by decide) (by decide)

/-! ## Screen output -/

theorem numeral_of_lt_ten {n : Nat} (h : n < 10) : numeral n = [48 + n] := by
  by_cases h0 : n = 0
  · simp [numeral, h0]
  · simp [numeral, h0, Nat.digits_of_lt 10 n h0 h, Nat.add_comm]

theorem numeral_of_ten_le {n : Nat} (h : 10 ≤ n) :
    numeral n = numeral (n / 10) ++ [48 + n % 10] := by
  have h0 : n ≠ 0 := by omega
  have h1 : n / 10 ≠ 0 := by omega
  have hd : Nat.digits 10 n = n % 10 :: Nat.digits 10 (n / 10) :=
    Nat.digits_def' (by decide) (by omega)
  simp [numeral, h0, h1, hd, Nat.add_comm]

theorem digitsAux_eq (fuel n : Nat) (acc : List Nat) (h : n < fuel) :
    digitsAux fuel n acc = numeral n ++ acc := by
  induction fuel generalizing n acc with
  | zero => omega
  | succ fuel ih =>
    by_cases hn : n < 10
    · simp [digitsAux, hn, numeral_of_lt_ten hn]
    · have hdiv : n / 10 < fuel := by omega
      simp [digitsAux, hn, ih (n / 10) _ hdiv, numeral_of_ten_le (by omega : 10 ≤ n)]

theorem to_string_eq (n : Nat) : to_string n = numeral n := by
  simp [to_string, digitsAux_eq (n + 1) n [] (Nat.lt_succ_self n)]

theorem renderLines_eq (w : Nat) (lines : List Line) (k : Nat) :
    renderLines w lines k
      = (lines.enumFrom (k + 1)).flatMap (fun x => numberedLine w x.1 x.2) := by
  induction lines generalizing k with
  | nil => simp [renderLines]
  | cons line rest ih =>
    have hdot : bytes ". " = [46, 32] := by decide
    simp [renderLines, ih, numberedLine, padLeft, to_string_eq, hdot, bytes_newline,
      List.enumFrom_cons]

theorem numeral_length_mono {i n : Nat} (h1 : 1 ≤ i) (h : i ≤ n) :
    (numeral i).length ≤ (numeral n).length := by
  have hi : i ≠ 0 := by omega
  have hn : n ≠ 0 := by omega
  simp only [numeral, hi, hn, if_false, List.length_map, List.length_reverse]
  exact Nat.le_digits_len_le 10 i n h

theorem numeral_length_bounds {n : Nat} (h : 1 ≤ n) :
    10 ^ ((numeral n).length - 1) ≤ n ∧ n < 10 ^ (numeral n).length := by
  have hn : n ≠ 0 := by omega
  have hlen : (numeral n).length = (Nat.digits 10 n).length := by
    simp [numeral, hn]
  rw [hlen]
  have hpos : 0 < (Nat.digits 10 n).length := by
    rcases Nat.eq_zero_or_pos (Nat.digits 10 n).length with h0 | h0
    · have := Nat.digits_eq_nil_iff_eq_zero.mp (List.length_eq_zero.mp h0)
      omega
    · exact h0
  have hlt := Nat.lt_base_pow_length_digits (b := 10) (m := n) (by decide)
  have hle := Nat.base_pow_length_digits_le 10 n (by decide) hn
  refine ⟨?_, hlt⟩
  obtain ⟨k, hk⟩ : ∃ k, (Nat.digits 10 n).length = k + 1 := ⟨_, (Nat.succ_pred_eq_of_pos hpos).symm⟩
  rw [hk] at hle ⊢
  simp only [Nat.add_sub_cancel]
  rw [pow_succ] at hle
  omega

/-- C16: for a non-empty document of `n` lines, with `w` the number of decimal
digits of `n` (so `10^(w-1) <= n < 10^w`), `renderText` writes the clear
sequence `ESC[2J ESC[H`, the two header lines, then for each line in document
order (numbered from 1) the numeral of its number right-aligned with spaces in
a field of width `w` (no numeral is longer than `w`), `". "`, the content and
a newline, and last the cursor positioning. -/
theorem render_line_format (lines : List Line) (curLine curPos : Int) (hne : lines ≠ []) :
    renderText lines curLine curPos
        = [27, 91, 50, 74, 27, 91, 72]
          ++ bytes "FastBox Text Editor (Ctrl+S save, Ctrl+O open, ESC exit)\n"
          ++ bytes "-----------------------------------------------------------\n"
          ++ (lines.enumFrom 1).flatMap
              (fun x => numberedLine (numeral lines.length).length x.1 x.2)
          ++ setCursorPosition ((numeral lines.length).length + 2 + curPos) (2 + curLine) ∧
      10 ^ ((numeral lines.length).length - 1) ≤ lines.length ∧
      lines.length < 10 ^ (numeral lines.length).length ∧
      ∀ i, 1 ≤ i → i ≤ lines.length → (numeral i).length ≤ (numeral lines.length).length := by
  have hlen : 1 ≤ lines.length := List.length_pos.mpr hne
  have hclear : clearScreen = [27, 91, 50, 74, 27, 91, 72] := by decide
  refine ⟨?_, (numeral_length_bounds hlen).1, (numeral_length_bounds hlen).2,
    fun i h1 h2 => numeral_length_mono h1 h2⟩
  simp only [renderText, renderLines_eq, to_string_eq, hclear]

/-- Witness of C16: the two-line document `["hi", ""]` is drawn as the clear
sequence, the header, `1. hi`, `2. ` and the cursor positioning. -/
theorem render_line_format_witness :
    renderText [[104, 105], []] 1 0
        = [27, 91, 50, 74, 27, 91, 72]
          ++ bytes "FastBox Text Editor (Ctrl+S save, Ctrl+O open, ESC exit)\n"
          ++ bytes "-----------------------------------------------------------\n"
          ++ (List.enumFrom 1 [[104, 105], []]).flatMap
              (fun x => numberedLine (numeral 2).length x.1 x.2)
          ++ setCursorPosition ((numeral 2).length + 2 + 0) (2 + 1) ∧
      renderText [[104, 105], []] 1 0
        = [27, 91, 50, 74, 27, 91, 72]
          ++ bytes "FastBox Text Editor (Ctrl+S save, Ctrl+O open, ESC exit)\n"
          ++ bytes "-----------------------------------------------------------\n"
          ++ [49, 46, 32, 104, 105, 10, 50, 46, 32, 10]
          ++ [27, 91, 52, 59, 52, 72] :=
  ⟨(render_line_format [[104, 105], []] 1 0 (by decide)).1, by decide⟩

end FastBox
